import Mathlib

/-!
Shallow embedding of `src/insiders_sniffer.py` (a single linear Python script
that discovers the top trading pools of a token, fetches transaction
signatures inside a time window, extracts buyer observations from parsed
transactions and aggregates them per wallet).

Python dictionaries with optional fields are modelled as structures with
`Option` fields; Python's truthiness on strings (`x or y`, `if x:`) is
modelled explicitly (`none` and the empty string are falsy); machine
integers are `Int`/`Nat` (Python integers are unbounded, so no modular
reduction is needed); dictionaries used as maps are association lists in
insertion order, with first-match lookup and in-place update, exactly
matching CPython dict semantics.  The RPC environment is modelled as the
sequence of pages it returns.
-/

namespace InsidersSniffer

/-- A JSON amount value as it reaches the amount-handling code: either a
string or a numeric (integer) value.  `Option AmtVal` stands for a possibly
absent field. -/
inductive AmtVal where
  | str (s : String)
  | num (n : Int)
deriving DecidableEq, Repr

/-- The ASCII fragment of Python `s.isdigit()`: true iff the string is
non-empty and every character is an ASCII decimal digit.  On ASCII strings
this coincides with CPython; CPython additionally accepts other Unicode
digit characters — `pyStrIsDigit` below models that full behaviour and
`rawContributionPy` the `int()` error path it enables. -/
def pyIsDigit (s : String) : Bool :=
  !s.data.isEmpty && s.data.all Char.isDigit

/-- Python `int(s)` on a string of decimal digits: the usual left fold
accumulating `acc * 10 + digit`. -/
def pyIntOfDigits (s : String) : Nat :=
  s.data.foldl (fun acc c => acc * 10 + (c.toNat - 48)) 0

/-- The decimal digit character for `d` (`d ≥ 9` maps to `9`; only used with
`d < 10`). -/
def decDigit : Nat → Char
  | 0 => '0' | 1 => '1' | 2 => '2' | 3 => '3' | 4 => '4'
  | 5 => '5' | 6 => '6' | 7 => '7' | 8 => '8' | _ => '9'

/-- Fuel-driven digit expansion (structural recursion on the fuel, so the
kernel can evaluate it); correct whenever `n < fuel`. -/
def natDigitsAux : Nat → Nat → List Char
  | 0, _ => []
  | fuel + 1, n =>
      if n < 10 then [decDigit n]
      else natDigitsAux fuel (n / 10) ++ [decDigit (n % 10)]

/-- Decimal digit characters of a natural number, most significant first
(the character list underlying Python `str(n)` for `n ≥ 0`). -/
def natDigits (n : Nat) : List Char :=
  natDigitsAux (n + 1) n

/-- Python `str(n)` for an unbounded integer `n`. -/
def pyStrInt (n : Int) : String :=
  if n < 0 then "-" ++ String.mk (natDigits n.natAbs)
  else String.mk (natDigits n.natAbs)

/-- Line 202 of the script,
`raw_int = int(amt) if isinstance(amt, str) and amt.isdigit() else 0`,
restricted to the inputs on which it is total: on numeric values, absent
values and ASCII strings this agrees exactly with CPython.  CPython's
behaviour on non-ASCII strings (Unicode decimal digits parse; digit-like
characters such as superscripts pass `isdigit()` but make `int()` raise
`ValueError`) is modelled by `rawContributionPy` below. -/
def rawContribution (amt : Option AmtVal) : Nat :=
  match amt with
  | some (.str s) => if pyIsDigit s then pyIntOfDigits s else 0
  | _ => 0

/-- CPython decimal-digit value of a character (Unicode category `Nd`,
exactly the characters `int()` accepts): `some d` when the character is a
decimal digit of value `d`.  Besides ASCII this lists the Arabic-Indic,
Devanagari and fullwidth decimal ranges exercised here; the remaining `Nd`
ranges of the Unicode table behave identically and are omitted. -/
def pyDecimalVal (c : Char) : Option Nat :=
  if '0' ≤ c ∧ c ≤ '9' then some (c.toNat - 0x30)
  else if 0x660 ≤ c.toNat ∧ c.toNat ≤ 0x669 then some (c.toNat - 0x660)
  else if 0x966 ≤ c.toNat ∧ c.toNat ≤ 0x96F then some (c.toNat - 0x966)
  else if 0xFF10 ≤ c.toNat ∧ c.toNat ≤ 0xFF19 then some (c.toNat - 0xFF10)
  else none

/-- CPython `c.isdigit()` for one character: true for every decimal digit
and also for the digit-like characters with `Numeric_Type=Digit` that
`int()` rejects — here the superscript digits U+00B2, U+00B3, U+00B9,
U+2070, U+2074..U+2079 and the subscript digits U+2080..U+2089. -/
def pyCharIsDigit (c : Char) : Bool :=
  (pyDecimalVal c).isSome
  || c.toNat == 0xB2 || c.toNat == 0xB3 || c.toNat == 0xB9
  || c.toNat == 0x2070 || (0x2074 ≤ c.toNat ∧ c.toNat ≤ 0x2079)
  || (0x2080 ≤ c.toNat ∧ c.toNat ≤ 0x2089)

/-- CPython `s.isdigit()`: non-empty and every character digit-like. -/
def pyStrIsDigit (s : String) : Bool :=
  !s.data.isEmpty && s.data.all pyCharIsDigit

/-- CPython `int(s)` on a string that `isdigit()` accepted: `some` of the
base-10 value when every character is a decimal digit (category `Nd`),
`none` when some character is digit-like but not decimal, in which case
`int()` raises `ValueError`. -/
def pyIntOfDecimalString (s : String) : Option Nat :=
  if s.data.all (fun c => (pyDecimalVal c).isSome) then
    some (s.data.foldl (fun acc c => acc * 10 + (pyDecimalVal c).getD 0) 0)
  else none

/-- The outcome of evaluating line 202 on one amount: a contribution to
`raw_total`, or the uncaught `ValueError` that aborts the whole run. -/
inductive PyResult where
  | ok (n : Nat)
  | valueError
deriving DecidableEq, Repr

/-- Line 202 with full CPython semantics: the contribution of one
observation amount to `raw_total`, or the uncaught `ValueError` raised
when the amount passes `isdigit()` with a character `int()` rejects. -/
def rawContributionPy (amt : Option AmtVal) : PyResult :=
  match amt with
  | some (.str s) =>
      if pyStrIsDigit s then
        match pyIntOfDecimalString s with
        | some n => .ok n
        | none => .valueError
      else .ok 0
  | _ => .ok 0

/-! ## Pool discovery (`get_top_pairs_from_dexscreener`, lines 36-54) -/

/-- One Dexscreener pair object, with the fields the script reads. -/
structure Pair where
  liquidity_usd : Option Int
  volume_h24 : Option Int
  baseToken : Option String
  quoteToken : Option String
  pairAddress : Option String
  dexId : Option String
deriving DecidableEq, Repr

/-- `score(p) = liq * 10 + vol` where a missing (or `None`) field is
replaced by `0` via Python `or 0` (which also maps an explicit `0` to `0`,
so `Option.getD 0` is exact on integers). -/
def score (p : Pair) : Int :=
  (p.liquidity_usd.getD 0) * 10 + p.volume_h24.getD 0

/-- The pair-filter of the script: keep `p` iff its base or quote token
address equals the mint.  A missing address (`none`) never equals the
mint string. -/
def pairMatches (mint : String) (p : Pair) : Bool :=
  p.baseToken == some mint || p.quoteToken == some mint

/-- `sorted(data, key=score, reverse=True)`: CPython sort is stable and
`reverse=True` preserves stability, so it is the unique stable sort for the
total preorder `score a ≥ score b`; `List.mergeSort` with that relation is
the same stable sort. -/
def pySortPairsDesc (data : List Pair) : List Pair :=
  data.mergeSort (fun a b => score b ≤ score a)

/-- The `for p in pairs` loop of `get_top_pairs_from_dexscreener`: append
matching pairs to `out`, breaking as soon as `len(out) >= top_n` (the check
runs after each iteration's optional append). -/
def topPairsGo (mint : String) (topN : Nat) (out : List Pair) : List Pair → List Pair
  | [] => out
  | p :: rest =>
      let out' := if pairMatches mint p then out ++ [p] else out
      if topN ≤ out'.length then out' else topPairsGo mint topN out' rest

/-- `get_top_pairs_from_dexscreener(mint, top_n)` applied to the decoded
response `data`: sort all pairs by descending score, then collect the first
`top_n` pairs that include the mint. -/
def get_top_pairs_from_dexscreener (mint : String) (topN : Nat) (data : List Pair) : List Pair :=
  topPairsGo mint topN [] (pySortPairsDesc data)

/-! ## Signature window fetcher (`fetch_signatures_in_window`, lines 66-98) -/

/-- One item of a `getSignaturesForAddress` page. -/
structure SigItem where
  blockTime : Option Int
  signature : String
deriving DecidableEq, Repr

/-- The `for item in batch` loop body of `fetch_signatures_in_window`:
returns the updated accumulator and whether the early `return sigs` fired
(block time present and strictly before `start_ts`). -/
def scanPage (start_ts end_ts : Int) (sigs : List String) : List SigItem → List String × Bool
  | [] => (sigs, false)
  | item :: rest =>
      match item.blockTime with
      | none => scanPage start_ts end_ts sigs rest
      | some bt =>
          if bt < start_ts then (sigs, true)
          else if start_ts ≤ bt ∧ bt ≤ end_ts then
            scanPage start_ts end_ts (sigs ++ [item.signature]) rest
          else scanPage start_ts end_ts sigs rest

/-- The `while True` pagination loop, with the RPC modelled as the sequence
of pages it returns (the `before` cursor selects the next page of the
sequence); an exhausted sequence behaves like the empty page that breaks
the loop. -/
def fetchSigsGo (start_ts end_ts : Int) (sigs : List String) : List (List SigItem) → List String
  | [] => sigs
  | page :: rest =>
      if page.isEmpty then sigs
      else
        match scanPage start_ts end_ts sigs page with
        | (sigs', true) => sigs'
        | (sigs', false) => fetchSigsGo start_ts end_ts sigs' rest

/-- `fetch_signatures_in_window(api_key, address, start_ts, end_ts)` where
`pages` is the sequence of pages the RPC returns for that address. -/
def fetch_signatures_in_window (pages : List (List SigItem)) (start_ts end_ts : Int) : List String :=
  fetchSigsGo start_ts end_ts [] pages

/-! ## Transaction extraction (`extract_buyers_from_parsed_tx`, lines 101-141) -/

/-- The nested `rawTokenAmount` object of a swap token output. -/
structure RawTokenAmount where
  tokenAmount : Option AmtVal
  decimals : Option Int
deriving DecidableEq, Repr

/-- One swap token output. -/
structure TokenOutput where
  mint : Option String
  toUserAccount : Option String
  userAccount : Option String
  rawTokenAmount : Option RawTokenAmount
deriving DecidableEq, Repr

/-- One inner-swap leg. -/
structure InnerSwap where
  tokenOutputs : Option (List TokenOutput)
deriving DecidableEq, Repr

/-- The swap event of a parsed transaction. -/
structure SwapEvent where
  tokenOutputs : Option (List TokenOutput)
  innerSwaps : Option (List InnerSwap)
deriving DecidableEq, Repr

/-- One flat token-transfer record. -/
structure TokenTransfer where
  mint : Option String
  toUserAccount : Option String
  tokenAmount : Option AmtVal
  decimals : Option Int
deriving DecidableEq, Repr

/-- A parsed transaction, with the fields the script reads
(`events_swap` models `(tx.get("events") or {}).get("swap")`). -/
structure Tx where
  signature : Option String
  timestamp : Option Int
  feePayer : Option String
  events_swap : Option SwapEvent
  tokenTransfers : Option (List TokenTransfer)
deriving DecidableEq, Repr

/-- One buyer observation tuple
`(buyer_wallet, raw_amount, decimals, signature, timestamp)`. -/
structure Obs where
  wallet : String
  amt : Option AmtVal
  dec : Option Int
  sig : Option String
  ts : Option Int
deriving DecidableEq, Repr

/-- Python `a or b` on optional strings: `a` unless `a` is `None` or the
empty string (both falsy), in which case `b`. -/
def pyOrStr (a b : Option String) : Option String :=
  match a with
  | some s => if s = "" then b else some s
  | none => b

/-- Python `if buyer:` — a buyer is truthy iff present and non-empty. -/
def truthyStr : Option String → Bool
  | some s => s ≠ ""
  | none => false

/-- The concatenated swap outputs the script builds: the swap event's
direct `tokenOutputs` plus every inner-swap leg's `tokenOutputs`, each
defaulted to `[]` via Python `or []`. -/
def swapOutputs (tx : Tx) : List TokenOutput :=
  match tx.events_swap with
  | none => []
  | some sw => sw.tokenOutputs.getD [] ++
      (sw.innerSwaps.getD []).flatMap (fun s => s.tokenOutputs.getD [])

/-- The `if buyer: out.append((buyer, amt, dec, sig, ts))` step shared by
both tiers: emit an observation exactly when the resolved buyer is truthy. -/
def resolveObs (buyer : Option String) (amt : Option AmtVal) (dec : Option Int)
    (sig : Option String) (ts : Option Int) : Option Obs :=
  match buyer with
  | some b => if b ≠ "" then some ⟨b, amt, dec, sig, ts⟩ else none
  | none => none

/-- `str(raw_amt) if raw_amt is not None else None` of the transfer tier:
a numeric amount is coerced to its decimal string, a string passes through
(`str` on a string is the identity), an absent amount stays absent. -/
def transferAmt : Option AmtVal → Option AmtVal
  | none => none
  | some (.str s) => some (.str s)
  | some (.num n) => some (.str (pyStrInt n))

/-- The swap-tier loop body for one output `o`: skip unless the mint
matches; resolve the buyer through the `toUserAccount` / `userAccount` /
fee-payer fallback chain; keep only truthy buyers. -/
def swapObs (mint : String) (fee_payer sig : Option String) (ts : Option Int)
    (o : TokenOutput) : Option Obs :=
  if o.mint ≠ some mint then none
  else
    resolveObs (pyOrStr (pyOrStr o.toUserAccount o.userAccount) fee_payer)
      (o.rawTokenAmount.getD ⟨none, none⟩).tokenAmount
      (o.rawTokenAmount.getD ⟨none, none⟩).decimals sig ts

/-- The token-transfer-tier loop body for one transfer `t`: skip unless the
mint matches; buyer falls back to the fee payer; the amount goes through
the `str` coercion. -/
def transferObs (mint : String) (fee_payer sig : Option String) (ts : Option Int)
    (t : TokenTransfer) : Option Obs :=
  if t.mint ≠ some mint then none
  else
    resolveObs (pyOrStr t.toUserAccount fee_payer) (transferAmt t.tokenAmount)
      t.decimals sig ts

/-- The swap tier's observation list for a transaction. -/
def swapTierObs (tx : Tx) (mint : String) : List Obs :=
  (swapOutputs tx).filterMap (swapObs mint tx.feePayer tx.signature tx.timestamp)

/-- The token-transfer tier's observation list for a transaction. -/
def transferTierObs (tx : Tx) (mint : String) : List Obs :=
  (tx.tokenTransfers.getD []).filterMap (transferObs mint tx.feePayer tx.signature tx.timestamp)

/-- `extract_buyers_from_parsed_tx(tx, mint)`: the swap tier wins when it
yields at least one observation (`if not out:` guards the fallback);
otherwise the flat token-transfer list is scanned. -/
def extract_buyers_from_parsed_tx (tx : Tx) (mint : String) : List Obs :=
  let out := swapTierObs tx mint
  if out.isEmpty then transferTierObs tx mint else out

/-! ## Aggregation (`main`, lines 160-227) -/

/-- One `buyers_agg[wallet]` record. -/
structure WalletAggregate where
  wallet : String
  first_ts : Option Int
  last_ts : Option Int
  tx_count : Nat
  raw_total : Nat
  decimals : Option Int
  example_sig : Option String
deriving DecidableEq, Repr

/-- The aggregate map: a CPython dict in insertion order. -/
abbrev AggMap : Type := List (String × WalletAggregate)

/-- `buyers_agg.get(wallet)`: first-match lookup. -/
def dictGet (m : AggMap) (k : String) : Option WalletAggregate :=
  match m.find? (fun e => e.1 == k) with
  | some e => some e.2
  | none => none

/-- Dict update: replace the first entry with key `k` in place, or append a
new entry (CPython dicts keep insertion order). -/
def dictSet (m : AggMap) (k : String) (v : WalletAggregate) : AggMap :=
  match m with
  | [] => [(k, v)]
  | e :: rest => if e.1 == k then (k, v) :: rest else e :: dictSet rest k v

/-- Python `min(a, b)` on two optional ints as `main` uses it: both values
are timestamps of in-window transactions, hence present; the `none` cases
are unreachable defaults. -/
def pyMinOpt (a b : Option Int) : Option Int :=
  match a, b with
  | some x, some y => some (min x y)
  | some x, none => some x
  | none, y => y

/-- Python `max(a, b)` on two optional ints, same reading as `pyMinOpt`. -/
def pyMaxOpt (a b : Option Int) : Option Int :=
  match a, b with
  | some x, some y => some (max x y)
  | some x, none => some x
  | none, y => y

/-- The new-wallet branch of the aggregation (lines 204-213). -/
def newAgg (o : Obs) : WalletAggregate :=
  ⟨o.wallet, o.ts, o.ts, 1, rawContribution o.amt, o.dec, o.sig⟩

/-- The existing-wallet branch of the aggregation (lines 214-220). -/
def updAgg (e : WalletAggregate) (o : Obs) : WalletAggregate :=
  { e with
    first_ts := pyMinOpt e.first_ts o.ts
    last_ts := pyMaxOpt e.last_ts o.ts
    tx_count := e.tx_count + 1
    raw_total := e.raw_total + rawContribution o.amt
    decimals := if e.decimals = none ∧ o.dec ≠ none then o.dec else e.decimals }

/-- Folding one observation into `buyers_agg` (lines 200-220). -/
def foldObs (m : AggMap) (o : Obs) : AggMap :=
  match dictGet m o.wallet with
  | none => dictSet m o.wallet (newAgg o)
  | some e => dictSet m o.wallet (updAgg e o)

/-- The `tx_count` of a possibly-absent aggregate entry (an absent entry
counts as zero folded observations). -/
def txCountOf : Option WalletAggregate → Nat
  | none => 0
  | some e => e.tx_count

/-- Processing one parsed transaction inside the batch loop (lines
191-220): drop it silently when the timestamp is absent or outside the
inclusive window, otherwise fold every extracted observation. -/
def processTx (mint : String) (start_ts end_ts : Int) (m : AggMap) (tx : Tx) : AggMap :=
  match tx.timestamp with
  | none => m
  | some t =>
      if start_ts ≤ t ∧ t ≤ end_ts then
        (extract_buyers_from_parsed_tx tx mint).foldl foldObs m
      else m

/-- Processing one parse-batch result (`for tx in parsed`). -/
def processParsed (mint : String) (start_ts end_ts : Int) (m : AggMap) (parsed : List Tx) : AggMap :=
  parsed.foldl (processTx mint start_ts end_ts) m

/-! ## Run skeleton (`main`, lines 144-247) -/

/-- `PARSE_BATCH = 100`. -/
def PARSE_BATCH : Nat := 100

/-- `list(dict.fromkeys(sigs))`: drop duplicates keeping the first
occurrence of each signature, in order. -/
def pyDedup : List String → List String
  | [] => []
  | x :: rest => x :: pyDedup (rest.filter (fun y => y ≠ x))
  termination_by l => l.length
  decreasing_by
    exact Nat.lt_succ_of_le (List.length_filter_le _ _)

/-- `for i in range(0, len(sigs), PARSE_BATCH): chunk = sigs[i:i+PARSE_BATCH]`:
split into contiguous chunks of size `b` (the `b = 0` guard is unreachable,
`range` needs a positive step). -/
def chunkList (b : Nat) : List α → List (List α)
  | [] => []
  | x :: xs =>
      if _h : b = 0 then []
      else (x :: xs).take b :: chunkList b ((x :: xs).drop b)
  termination_by l => l.length
  decreasing_by
    simp only [List.length_drop, List.length_cons]
    omega

/-- The two RPC dependencies of the pool loop, modelled as the data they
return: the signature pages for an address, and the parsed transactions
for a signature batch. -/
structure RpcEnv where
  sigPages : String → List (List SigItem)
  parse : List String → List Tx

/-- The body of `for p in pairs` in `main` (lines 162-223): skip pairs with
a falsy `pairAddress` or whose base and quote both differ from the mint;
otherwise fetch the signature window, dedup, chunk, parse each chunk and
fold its transactions into the aggregate. -/
def processPool (mint : String) (start_ts end_ts : Int) (env : RpcEnv) (m : AggMap)
    (p : Pair) : AggMap :=
  match p.pairAddress with
  | none => m
  | some addr =>
      if addr = "" then m
      else if p.baseToken ≠ some mint ∧ p.quoteToken ≠ some mint then m
      else
        let sigs := pyDedup (fetch_signatures_in_window (env.sigPages addr) start_ts end_ts)
        (chunkList PARSE_BATCH sigs).foldl
          (fun acc chunk => processParsed mint start_ts end_ts acc (env.parse chunk)) m

/-- How a run ends: a fatal `SystemExit` with a user-facing message and no
CSV file, or a CSV written with the given name and rows. -/
inductive RunOutcome where
  | fatalNoPools (msg : String)
  | wrote (filename : String) (rows : List WalletAggregate)
deriving DecidableEq, Repr

/-- Comparison used to sort report rows by `first_ts` (always present for
rows produced by the pipeline). -/
def optIntLe : Option Int → Option Int → Bool
  | some x, some y => x ≤ y
  | none, _ => true
  | _, none => false

/-- `main` after the configuration check, as a function of the decoded
Dexscreener response and the RPC environment: discover pools, exit fatally
when none survive the filter, otherwise aggregate every pool and produce
the sorted rows of the CSV (lines 156-247). -/
def runMain (mint : String) (topN : Nat) (start_ts end_ts : Int) (data : List Pair)
    (env : RpcEnv) : RunOutcome :=
  let pairs := get_top_pairs_from_dexscreener mint topN data
  if pairs.isEmpty then
    .fatalNoPools "No Dexscreener pairs found that include this mint. (Wrong mint or not traded yet.)"
  else
    let agg := pairs.foldl (processPool mint start_ts end_ts env) ([] : AggMap)
    let rows := (agg.map (fun e => e.2)).mergeSort (fun a b => optIntLe a.first_ts b.first_ts)
    .wrote ("buyers_" ++ (mint.take 6) ++ "_" ++ pyStrInt start_ts ++ "_" ++ pyStrInt end_ts ++ ".csv") rows

/-! ## Helper lemmas: decimal digits and round-trips -/

theorem decDigit_isDigit (d : Nat) : (decDigit d).isDigit = true := by
  unfold decDigit
  split <;> decide

theorem decDigit_toNat {d : Nat} (h : d < 10) : (decDigit d).toNat - 48 = d := by
  interval_cases d <;> decide

theorem natDigitsAux_all_isDigit (fuel : Nat) : ∀ n : Nat,
    (natDigitsAux fuel n).all Char.isDigit = true := by
  induction fuel with
  | zero => intro n; rfl
  | succ fuel ih =>
    intro n
    simp only [natDigitsAux]
    split
    · simp [decDigit_isDigit]
    · simp [List.all_append, ih, decDigit_isDigit]

theorem natDigitsAux_ne_nil (fuel n : Nat) (h : 0 < fuel) : natDigitsAux fuel n ≠ [] := by
  cases fuel with
  | zero => omega
  | succ fuel =>
    simp only [natDigitsAux]
    split <;> simp

theorem natDigitsAux_foldl (fuel : Nat) : ∀ n a : Nat, n < fuel →
    (natDigitsAux fuel n).foldl (fun acc c => acc * 10 + (c.toNat - 48)) a
      = a * 10 ^ (natDigitsAux fuel n).length + n := by
  induction fuel with
  | zero => intro n a h; omega
  | succ fuel ih =>
    intro n a h
    simp only [natDigitsAux]
    split
    · next h10 => simp [List.foldl, decDigit_toNat h10]
    · next h10 =>
      have hdiv : n / 10 < fuel := by omega
      have hmod : n % 10 < 10 := Nat.mod_lt n (by omega)
      rw [List.foldl_append, ih (n / 10) a hdiv, List.length_append, List.length_singleton]
      simp only [List.foldl, decDigit_toNat hmod]
      have hn : n / 10 * 10 + n % 10 = n := by omega
      calc (a * 10 ^ (natDigitsAux fuel (n / 10)).length + n / 10) * 10 + n % 10
          = a * (10 ^ (natDigitsAux fuel (n / 10)).length * 10) + (n / 10 * 10 + n % 10) := by
            ring
        _ = a * 10 ^ ((natDigitsAux fuel (n / 10)).length + 1) + n := by rw [hn, pow_succ]

theorem natDigits_ne_nil (n : Nat) : natDigits n ≠ [] := by
  unfold natDigits
  exact natDigitsAux_ne_nil (n + 1) n (by omega)

theorem pyIsDigit_natDigits (n : Nat) : pyIsDigit (String.mk (natDigits n)) = true := by
  have h1 := natDigitsAux_ne_nil (n + 1) n (by omega)
  have h2 := natDigitsAux_all_isDigit (n + 1) n
  simp [pyIsDigit, natDigits, h1, h2]

theorem pyIntOfDigits_natDigits (n : Nat) : pyIntOfDigits (String.mk (natDigits n)) = n := by
  simp [pyIntOfDigits, natDigits, natDigitsAux_foldl (n + 1) n 0 (by omega)]

theorem pyStrInt_ofNat (n : Nat) : pyStrInt (n : Int) = String.mk (natDigits n) := by
  simp [pyStrInt, Int.natAbs_ofNat]

theorem rawContribution_pyStrInt_nat (n : Nat) :
    rawContribution (some (.str (pyStrInt (n : Int)))) = n := by
  rw [pyStrInt_ofNat]
  simp [rawContribution, pyIsDigit_natDigits n, pyIntOfDigits_natDigits n]

/-! ## Claim theorems -/

/-- C4 (code bug): line 202 is not error-free the way the claim states.
At the amount `"²"` (U+00B2, SUPERSCRIPT TWO) the guard `amt.isdigit()`
is true in CPython, but the character is not a decimal digit, so
`int("²")` raises an uncaught `ValueError` and the run aborts — where the
claim (and the spec's stated intent) requires a silent contribution of 0.
The Unicode decimal string `"٤٢"` contributes 42, and the spec's concrete
ASCII examples evaluate exactly as claimed. -/
theorem amount_parsing_value_error :
    rawContributionPy (some (.str "²")) = .valueError
    ∧ rawContributionPy (some (.str "٤٢")) = .ok 42
    ∧ rawContributionPy (some (.str "12345")) = .ok 12345
    ∧ rawContributionPy (some (.str "1.5")) = .ok 0
    ∧ rawContributionPy (some (.str "abc")) = .ok 0
    ∧ rawContributionPy none = .ok 0
    ∧ rawContributionPy (some (.str "-5")) = .ok 0 := by
  decide

theorem topPairsGo_eq (mint : String) (topN : Nat) :
    ∀ (l out : List Pair), out.length < topN →
      topPairsGo mint topN out l
        = out ++ (l.filter (pairMatches mint)).take (topN - out.length) := by
  intro l
  induction l with
  | nil => intro out h; simp [topPairsGo]
  | cons p rest ih =>
    intro out h
    simp only [topPairsGo]
    by_cases hm : pairMatches mint p = true
    · rw [if_pos hm]
      by_cases hlen : topN ≤ (out ++ [p]).length
      · rw [if_pos hlen]
        simp only [List.length_append, List.length_singleton] at hlen
        have h1 : topN - out.length = 0 + 1 := by omega
        rw [List.filter_cons_of_pos hm, h1, List.take_succ_cons, List.take_zero]
      · rw [if_neg hlen]
        simp only [List.length_append, List.length_singleton] at hlen
        rw [ih (out ++ [p]) (by simp only [List.length_append, List.length_singleton]; omega)]
        have h2 : topN - out.length = (topN - (out.length + 1)) + 1 := by omega
        rw [List.filter_cons_of_pos hm, h2, List.take_succ_cons, List.append_assoc]
        simp only [List.length_append, List.length_singleton, List.singleton_append]
    · rw [if_neg hm]
      have hlen : ¬ topN ≤ out.length := by omega
      rw [if_neg hlen, ih out h,
        List.filter_cons_of_neg (by simpa using hm)]

theorem pairMatches_of_mem_top (mint : String) (data : List Pair) (p : Pair)
    (hp : p ∈ (pySortPairsDesc data).filter (pairMatches mint)) :
    p.baseToken = some mint ∨ p.quoteToken = some mint := by
  have := (List.mem_filter.mp hp).2
  simpa [pairMatches] using this

/-- C7: for `N ≥ 1`, pool discovery returns exactly the first `N` pairs of
the descending stable score sort that reference the mint; the returned list
is pairwise descending in score, and every returned pair has its base or
quote token address equal to the target mint. -/
theorem pool_discovery_top_pairs (mint : String) (topN : Nat) (hN : 1 ≤ topN)
    (data : List Pair) :
    get_top_pairs_from_dexscreener mint topN data
      = ((pySortPairsDesc data).filter (pairMatches mint)).take topN
    ∧ List.Pairwise (fun a b => score b ≤ score a)
        (get_top_pairs_from_dexscreener mint topN data)
    ∧ ∀ p ∈ get_top_pairs_from_dexscreener mint topN data,
        p.baseToken = some mint ∨ p.quoteToken = some mint := by
  have heq : get_top_pairs_from_dexscreener mint topN data
      = ((pySortPairsDesc data).filter (pairMatches mint)).take topN := by
    unfold get_top_pairs_from_dexscreener
    rw [topPairsGo_eq mint topN _ [] (by simpa using hN)]
    simp
  refine ⟨heq, ?_, ?_⟩
  · have hsorted : List.Pairwise (fun a b => (decide (score b ≤ score a)) = true)
        (pySortPairsDesc data) := by
      apply List.sorted_mergeSort
      · intro a b c hab hbc
        simp only [decide_eq_true_eq] at hab hbc ⊢
        exact le_trans hbc hab
      · intro a b
        simp only [Bool.or_eq_true, decide_eq_true_eq]
        exact le_total (score b) (score a)
    have hsub : List.Sublist (get_top_pairs_from_dexscreener mint topN data)
        (pySortPairsDesc data) := by
      rw [heq]
      exact (List.take_sublist _ _).trans (List.filter_sublist _)
    exact (List.Pairwise.sublist hsub hsorted).imp (fun h => by simpa using h)
  · intro p hp
    rw [heq] at hp
    exact pairMatches_of_mem_top mint data p (List.Sublist.mem hp (List.take_sublist _ _))

/-- Witness for C7 on a concrete four-pair response with a score tie. -/
theorem pool_discovery_top_pairs_witness :
    (1 : Nat) ≤ 2 ∧
    get_top_pairs_from_dexscreener "M" 2
        [⟨some 100, some 5, some "M", some "Q", some "a1", none⟩,
         ⟨some 100, some 5, some "X", some "Y", some "a2", none⟩,
         ⟨some 200, some 0, some "Z", some "M", some "a3", none⟩,
         ⟨none, none, some "M", none, some "a4", none⟩]
      = ((pySortPairsDesc
          [⟨some 100, some 5, some "M", some "Q", some "a1", none⟩,
           ⟨some 100, some 5, some "X", some "Y", some "a2", none⟩,
           ⟨some 200, some 0, some "Z", some "M", some "a3", none⟩,
           ⟨none, none, some "M", none, some "a4", none⟩]).filter (pairMatches "M")).take 2 :=
  ⟨by decide, (pool_discovery_top_pairs "M" 2 (by decide) _).1⟩

theorem scanPage_sound (start_ts end_ts : Int) :
    ∀ (page : List SigItem) (sigs : List String) (s : String),
      s ∈ (scanPage start_ts end_ts sigs page).1 →
      s ∈ sigs ∨ ∃ item ∈ page, item.signature = s ∧
        ∃ bt, item.blockTime = some bt ∧ start_ts ≤ bt ∧ bt ≤ end_ts := by
  intro page
  induction page with
  | nil => intro sigs s hs; exact Or.inl hs
  | cons item rest ih =>
    intro sigs s hs
    simp only [scanPage] at hs
    split at hs
    · rcases ih sigs s hs with h1 | ⟨it, hit, hsig, bt, hbt2, hlo, hhi⟩
      · exact Or.inl h1
      · exact Or.inr ⟨it, List.mem_cons_of_mem _ hit, hsig, bt, hbt2, hlo, hhi⟩
    · next bt hbt =>
      split at hs
      · exact Or.inl hs
      · split at hs
        · next hin =>
          rcases ih (sigs ++ [item.signature]) s hs with h1 | ⟨it, hit, hsig, bt2, hbt2, hlo, hhi⟩
          · rcases List.mem_append.mp h1 with h2 | h2
            · exact Or.inl h2
            · refine Or.inr ⟨item, List.mem_cons_self _ _, ?_, bt, hbt, hin.1, hin.2⟩
              exact (List.mem_singleton.mp h2).symm
          · exact Or.inr ⟨it, List.mem_cons_of_mem _ hit, hsig, bt2, hbt2, hlo, hhi⟩
        · rcases ih sigs s hs with h1 | ⟨it, hit, hsig, bt2, hbt2, hlo, hhi⟩
          · exact Or.inl h1
          · exact Or.inr ⟨it, List.mem_cons_of_mem _ hit, hsig, bt2, hbt2, hlo, hhi⟩

theorem fetchSigsGo_sound (start_ts end_ts : Int) :
    ∀ (pages : List (List SigItem)) (sigs : List String) (s : String),
      s ∈ fetchSigsGo start_ts end_ts sigs pages →
      s ∈ sigs ∨ ∃ item ∈ pages.flatten, item.signature = s ∧
        ∃ bt, item.blockTime = some bt ∧ start_ts ≤ bt ∧ bt ≤ end_ts := by
  intro pages
  induction pages with
  | nil => intro sigs s hs; exact Or.inl hs
  | cons page rest ih =>
    intro sigs s hs
    simp only [fetchSigsGo] at hs
    by_cases hemp : page.isEmpty
    · rw [if_pos hemp] at hs
      exact Or.inl hs
    · rw [if_neg hemp] at hs
      rcases hres : scanPage start_ts end_ts sigs page with ⟨sigs', b⟩
      rw [hres] at hs
      have page_case : s ∈ sigs' →
          s ∈ sigs ∨ ∃ item ∈ (page :: rest).flatten, item.signature = s ∧
            ∃ bt, item.blockTime = some bt ∧ start_ts ≤ bt ∧ bt ≤ end_ts := by
        intro hmem
        rcases scanPage_sound start_ts end_ts page sigs s (by rw [hres]; exact hmem) with
          h1 | ⟨it, hit, hsig, bt, hbt, hlo, hhi⟩
        · exact Or.inl h1
        · exact Or.inr ⟨it, by simp [List.mem_flatten]; exact Or.inl hit, hsig, bt, hbt, hlo, hhi⟩
      cases b with
      | true => exact page_case hs
      | false =>
        rcases ih sigs' s hs with h1 | ⟨it, hit, hsig, bt, hbt, hlo, hhi⟩
        · exact page_case h1
        · refine Or.inr ⟨it, ?_, hsig, bt, hbt, hlo, hhi⟩
          simp only [List.flatten_cons, List.mem_append]
          exact Or.inr hit

/-- C2: every signature returned by the signature window fetcher is the
signature of some item of the returned pages whose block time is present
and lies within `[start_ts, end_ts]` inclusive; in particular a signature
whose only items have an absent block time is never returned. -/
theorem fetch_signatures_window_sound (pages : List (List SigItem))
    (start_ts end_ts : Int) (_hwin : start_ts ≤ end_ts) :
    ∀ s ∈ fetch_signatures_in_window pages start_ts end_ts,
      ∃ item ∈ pages.flatten, item.signature = s ∧
        ∃ bt, item.blockTime = some bt ∧ start_ts ≤ bt ∧ bt ≤ end_ts := by
  intro s hs
  rcases fetchSigsGo_sound start_ts end_ts pages [] s hs with h1 | h2
  · exact absurd h1 (List.not_mem_nil s)
  · exact h2

/-- Witness for C2 on two concrete pages (an absent block time, an
in-window one, and a below-window one triggering the early exit). -/
theorem fetch_signatures_window_sound_witness :
    (1000 : Int) ≤ 2000 ∧
    ∃ item ∈ List.flatten
        [[⟨some 2500, "s1"⟩, ⟨some 1900, "s2"⟩, (⟨none, "s3"⟩ : SigItem), ⟨some 1500, "s4"⟩],
         [⟨some 1100, "s5"⟩, ⟨some 900, "s6"⟩, ⟨some 800, "s7"⟩]],
      item.signature = "s2" ∧ ∃ bt, item.blockTime = some bt ∧ (1000 : Int) ≤ bt ∧ bt ≤ 2000 :=
  ⟨by decide,
    fetch_signatures_window_sound
      [[⟨some 2500, "s1"⟩, ⟨some 1900, "s2"⟩, (⟨none, "s3"⟩ : SigItem), ⟨some 1500, "s4"⟩],
       [⟨some 1100, "s5"⟩, ⟨some 900, "s6"⟩, ⟨some 800, "s7"⟩]]
      1000 2000 (by decide) "s2" (by decide)⟩

/-- C8: as soon as the page scan meets an item whose block time is present
and strictly before the window start, it returns the signatures collected
so far with the early-exit flag, and the pagination loop then returns that
accumulator unchanged — for every possible remainder of the page and every
possible list of further pages, so no later item is examined and no further
page is requested. -/
theorem signature_walk_early_exit (start_ts end_ts : Int) (sigs : List String)
    (item : SigItem) (bt : Int) (rest : List SigItem) (pages : List (List SigItem))
    (h1 : item.blockTime = some bt) (h2 : bt < start_ts) :
    scanPage start_ts end_ts sigs (item :: rest) = (sigs, true)
    ∧ fetchSigsGo start_ts end_ts sigs ((item :: rest) :: pages) = sigs := by
  have hscan : scanPage start_ts end_ts sigs (item :: rest) = (sigs, true) := by
    simp only [scanPage, h1, if_pos h2]
  refine ⟨hscan, ?_⟩
  simp [fetchSigsGo, hscan]

/-- Witness for C8: the early exit at a concrete below-window item. -/
theorem signature_walk_early_exit_witness :
    (⟨some 900, "s6"⟩ : SigItem).blockTime = some 900 ∧ (900 : Int) < 1000 ∧
    scanPage 1000 2000 ["s5"] [⟨some 900, "s6"⟩, ⟨some 1500, "s7"⟩] = (["s5"], true)
    ∧ fetchSigsGo 1000 2000 ["s5"]
        [[⟨some 900, "s6"⟩, ⟨some 1500, "s7"⟩], [⟨some 1400, "s8"⟩]] = ["s5"] :=
  ⟨rfl, by decide,
    (signature_walk_early_exit 1000 2000 ["s5"] ⟨some 900, "s6"⟩ 900 [⟨some 1500, "s7"⟩]
      [[⟨some 1400, "s8"⟩]] rfl (by decide)).1,
    (signature_walk_early_exit 1000 2000 ["s5"] ⟨some 900, "s6"⟩ 900 [⟨some 1500, "s7"⟩]
      [[⟨some 1400, "s8"⟩]] rfl (by decide)).2⟩

theorem resolveObs_some_amt {buyer : Option String} {amt : Option AmtVal} {dec : Option Int}
    {sig : Option String} {ts : Option Int} {ob : Obs}
    (h : resolveObs buyer amt dec sig ts = some ob) : ob.amt = amt := by
  unfold resolveObs at h
  split at h
  · split at h
    · injection h with h'
      subst h'
      rfl
    · exact absurd h (by simp)
  · exact absurd h (by simp)

/-- C3: when some swap-event token output (direct or inner-swap) of a
transaction matches the target mint and yields an observation (its buyer
resolves through the `toUserAccount` / `userAccount` / fee-payer chain),
the extractor returns exactly the swap tier's observations, and its result
does not depend on the flat token-transfer list at all — replacing
`tokenTransfers` by anything leaves the result unchanged. -/
theorem swap_tier_priority (tx : Tx) (mint : String) (o : TokenOutput) (ob : Obs)
    (ho : o ∈ swapOutputs tx)
    (hobs : swapObs mint tx.feePayer tx.signature tx.timestamp o = some ob) :
    extract_buyers_from_parsed_tx tx mint = swapTierObs tx mint
    ∧ ∀ tts : Option (List TokenTransfer),
        extract_buyers_from_parsed_tx { tx with tokenTransfers := tts } mint
          = extract_buyers_from_parsed_tx tx mint := by
  have hmem : ob ∈ swapTierObs tx mint :=
    List.mem_filterMap.mpr ⟨o, ho, hobs⟩
  have hne : (swapTierObs tx mint).isEmpty = false := by
    cases hsw : swapTierObs tx mint with
    | nil => rw [hsw] at hmem; exact absurd hmem (List.not_mem_nil ob)
    | cons a l => rfl
  have hmain : extract_buyers_from_parsed_tx tx mint = swapTierObs tx mint := by
    simp [extract_buyers_from_parsed_tx, hne]
  refine ⟨hmain, fun tts => ?_⟩
  have hswap_same : swapTierObs { tx with tokenTransfers := tts } mint = swapTierObs tx mint := rfl
  rw [hmain]
  simp [extract_buyers_from_parsed_tx, hswap_same, hne]

/-- Witness for C3: a transaction carrying both a matching swap output and
a matching flat token transfer yields only the swap observation. -/
theorem swap_tier_priority_witness :
    (⟨some "M", some "W1", none, some ⟨some (.str "100"), some 6⟩⟩ : TokenOutput) ∈
      swapOutputs ⟨some "sigX", some 1200, some "FP",
        some ⟨some [⟨some "M", some "W1", none, some ⟨some (.str "100"), some 6⟩⟩], some []⟩,
        some [⟨some "M", some "W2", some (.str "77"), some 6⟩]⟩
    ∧ extract_buyers_from_parsed_tx
        ⟨some "sigX", some 1200, some "FP",
          some ⟨some [⟨some "M", some "W1", none, some ⟨some (.str "100"), some 6⟩⟩], some []⟩,
          some [⟨some "M", some "W2", some (.str "77"), some 6⟩]⟩ "M"
      = swapTierObs
        ⟨some "sigX", some 1200, some "FP",
          some ⟨some [⟨some "M", some "W1", none, some ⟨some (.str "100"), some 6⟩⟩], some []⟩,
          some [⟨some "M", some "W2", some (.str "77"), some 6⟩]⟩ "M" :=
  ⟨by decide,
    (swap_tier_priority
      ⟨some "sigX", some 1200, some "FP",
        some ⟨some [⟨some "M", some "W1", none, some ⟨some (.str "100"), some 6⟩⟩], some []⟩,
        some [⟨some "M", some "W2", some (.str "77"), some 6⟩]⟩ "M"
      ⟨some "M", some "W1", none, some ⟨some (.str "100"), some 6⟩⟩
      ⟨"W1", some (.str "100"), some 6, some "sigX", some 1200⟩
      (by decide) (by decide)).1⟩

/-- C10: the two tiers treat a numeric (non-string) amount differently —
the swap tier passes the raw value through uncoerced, so a numeric amount
contributes `0` to `raw_total`, while the token-transfer tier coerces a
numeric amount `v` to its decimal string, so the same value contributes
`v`. -/
theorem tier_amount_asymmetry (v : Nat) (mint : String) (fee sig : Option String)
    (ts : Option Int) (o : TokenOutput) (t : TokenTransfer) (ob1 ob2 : Obs)
    (ho : (o.rawTokenAmount.getD ⟨none, none⟩).tokenAmount = some (.num (v : Int)))
    (h1 : swapObs mint fee sig ts o = some ob1)
    (ht : t.tokenAmount = some (.num (v : Int)))
    (h2 : transferObs mint fee sig ts t = some ob2) :
    rawContribution ob1.amt = 0 ∧ rawContribution ob2.amt = v := by
  constructor
  · have hamt : ob1.amt = (o.rawTokenAmount.getD ⟨none, none⟩).tokenAmount := by
      unfold swapObs at h1
      split at h1
      · exact absurd h1 (by simp)
      · exact resolveObs_some_amt h1
    rw [hamt, ho]
    rfl
  · have hamt : ob2.amt = transferAmt t.tokenAmount := by
      unfold transferObs at h2
      split at h2
      · exact absurd h2 (by simp)
      · exact resolveObs_some_amt h2
    rw [hamt, ht]
    simp only [transferAmt]
    exact rawContribution_pyStrInt_nat v

/-- Witness for C10 at the numeric amount `55`. -/
theorem tier_amount_asymmetry_witness :
    ((⟨some "M", some "W1", none, some ⟨some (.num 55), some 6⟩⟩ : TokenOutput).rawTokenAmount.getD
        ⟨none, none⟩).tokenAmount = some (.num ((55 : Nat) : Int))
    ∧ rawContribution
        (⟨"W1", some (.num 55), some 6, some "g", some 1⟩ : Obs).amt = 0
    ∧ rawContribution
        (⟨"FP", some (.str (pyStrInt ((55 : Nat) : Int))), some 6, some "g", some 1⟩ : Obs).amt = 55 :=
  ⟨by decide,
    (tier_amount_asymmetry 55 "M" (some "FP") (some "g") (some 1)
      ⟨some "M", some "W1", none, some ⟨some (.num 55), some 6⟩⟩
      ⟨some "M", none, some (.num 55), some 6⟩
      ⟨"W1", some (.num 55), some 6, some "g", some 1⟩
      ⟨"FP", some (.str (pyStrInt ((55 : Nat) : Int))), some 6, some "g", some 1⟩
      (by decide) (by decide) (by decide) (by decide)).1,
    (tier_amount_asymmetry 55 "M" (some "FP") (some "g") (some 1)
      ⟨some "M", some "W1", none, some ⟨some (.num 55), some 6⟩⟩
      ⟨some "M", none, some (.num 55), some 6⟩
      ⟨"W1", some (.num 55), some 6, some "g", some 1⟩
      ⟨"FP", some (.str (pyStrInt ((55 : Nat) : Int))), some 6, some "g", some 1⟩
      (by decide) (by decide) (by decide) (by decide)).2⟩

/-- C6: a parsed transaction whose timestamp is absent, or lies strictly
outside the inclusive `[start_ts, end_ts]` window, contributes nothing to
the aggregate — the per-transaction step leaves any aggregate map
unchanged (a silent discard, no error path exists), and removing such a
transaction from a parse batch does not change the batch's result. -/
theorem out_of_window_tx_discarded (mint : String) (start_ts end_ts : Int) (tx : Tx)
    (h : tx.timestamp = none ∨ ∃ t, tx.timestamp = some t ∧ (t < start_ts ∨ end_ts < t)) :
    (∀ m : AggMap, processTx mint start_ts end_ts m tx = m)
    ∧ ∀ (m : AggMap) (pre post : List Tx),
        processParsed mint start_ts end_ts m (pre ++ tx :: post)
          = processParsed mint start_ts end_ts m (pre ++ post) := by
  have hstep : ∀ m : AggMap, processTx mint start_ts end_ts m tx = m := by
    intro m
    unfold processTx
    split
    · rfl
    · next t' heq =>
      rcases h with h0 | ⟨t, ht, hout⟩
      · rw [h0] at heq
        cases heq
      · rw [ht] at heq
        injection heq with heq'
        subst heq'
        rcases hout with h1 | h1
        · rw [if_neg (by omega)]
        · rw [if_neg (by omega)]
  refine ⟨hstep, fun m pre post => ?_⟩
  unfold processParsed
  rw [List.foldl_append, List.foldl_append, List.foldl_cons, hstep]

/-- Witness for C6 at a concrete transaction timestamped 500 against the
window [1000, 2000]. -/
theorem out_of_window_tx_discarded_witness :
    ((⟨some "s", some 500, some "FP", none,
        some [⟨some "M", some "W2", some (.str "77"), some 6⟩]⟩ : Tx).timestamp = none ∨
      ∃ t, (⟨some "s", some 500, some "FP", none,
        some [⟨some "M", some "W2", some (.str "77"), some 6⟩]⟩ : Tx).timestamp = some t ∧
        (t < 1000 ∨ 2000 < t))
    ∧ processTx "M" 1000 2000 []
        ⟨some "s", some 500, some "FP", none,
          some [⟨some "M", some "W2", some (.str "77"), some 6⟩]⟩ = [] :=
  ⟨Or.inr ⟨500, rfl, Or.inl (by decide)⟩,
    (out_of_window_tx_discarded "M" 1000 2000
      ⟨some "s", some 500, some "FP", none,
        some [⟨some "M", some "W2", some (.str "77"), some 6⟩]⟩
      (Or.inr ⟨500, rfl, Or.inl (by decide)⟩)).1 []⟩

theorem topPairsGo_nomatch (mint : String) (topN : Nat) :
    ∀ l : List Pair, (∀ p ∈ l, pairMatches mint p = false) →
      topPairsGo mint topN [] l = [] := by
  intro l
  induction l with
  | nil => intro h; rfl
  | cons p rest ih =>
    intro h
    have hp : pairMatches mint p = false := h p (List.mem_cons_self p rest)
    simp only [topPairsGo]
    rw [hp]
    by_cases hN : topN = 0
    · simp [hN]
    · simp only [Bool.false_eq_true, if_false, List.length_nil]
      rw [if_neg (by omega)]
      exact ih fun q hq => h q (List.mem_cons_of_mem p hq)

/-- C9: when no pair of the Dexscreener response references the target
mint, the run ends with the fatal no-pools `SystemExit` outcome (so no CSV
row set is ever produced), and the outcome does not depend on the RPC
environment at all — no signature page is fetched and nothing is
aggregated. -/
theorem no_pools_fatal_exit (mint : String) (topN : Nat) (start_ts end_ts : Int)
    (data : List Pair) (h : ∀ p ∈ data, pairMatches mint p = false)
    (env env2 : RpcEnv) :
    runMain mint topN start_ts end_ts data env
      = .fatalNoPools
          "No Dexscreener pairs found that include this mint. (Wrong mint or not traded yet.)"
    ∧ runMain mint topN start_ts end_ts data env
      = runMain mint topN start_ts end_ts data env2 := by
  have hempty : get_top_pairs_from_dexscreener mint topN data = [] := by
    unfold get_top_pairs_from_dexscreener
    apply topPairsGo_nomatch
    intro p hp
    exact h p ((List.mergeSort_perm data _).mem_iff.mp hp)
  have hrun : ∀ e : RpcEnv, runMain mint topN start_ts end_ts data e
      = .fatalNoPools
          "No Dexscreener pairs found that include this mint. (Wrong mint or not traded yet.)" := by
    intro e
    unfold runMain
    rw [hempty]
    rfl
  exact ⟨hrun env, (hrun env).trans (hrun env2).symm⟩

/-- Witness for C9: a one-pair response that does not reference the mint
is fatal under two different RPC environments. -/
theorem no_pools_fatal_exit_witness :
    (∀ p ∈ [(⟨some 100, some 5, some "X", some "Y", some "a2", none⟩ : Pair)],
        pairMatches "M" p = false)
    ∧ runMain "M" 5 1000 2000 [⟨some 100, some 5, some "X", some "Y", some "a2", none⟩]
        ⟨fun _ => [[⟨some 1500, "s1"⟩]], fun _ => []⟩
      = .fatalNoPools
          "No Dexscreener pairs found that include this mint. (Wrong mint or not traded yet.)" :=
  ⟨by decide,
    (no_pools_fatal_exit "M" 5 1000 2000
      [⟨some 100, some 5, some "X", some "Y", some "a2", none⟩] (by decide)
      ⟨fun _ => [[⟨some 1500, "s1"⟩]], fun _ => []⟩ ⟨fun _ => [], fun _ => []⟩).1⟩

/-! ## Dictionary and aggregation lemmas -/

theorem dictGet_cons (e : String × WalletAggregate) (m : AggMap) (k : String) :
    dictGet (e :: m) k = if e.1 = k then some e.2 else dictGet m k := by
  by_cases h : e.1 = k
  · simp [dictGet, List.find?_cons, h]
  · simp [dictGet, List.find?_cons, h]

theorem dictGet_dictSet_self (k : String) (v : WalletAggregate) :
    ∀ m : AggMap, dictGet (dictSet m k v) k = some v := by
  intro m
  induction m with
  | nil => simp [dictGet, dictSet, List.find?_cons]
  | cons e rest ih =>
    simp only [dictSet]
    by_cases h : e.1 = k
    · rw [if_pos (by simpa using h)]
      simp [dictGet_cons]
    · rw [if_neg (by simpa using h)]
      rw [dictGet_cons, if_neg h, ih]

theorem dictGet_dictSet_ne (k k' : String) (v : WalletAggregate) (hk : k' ≠ k) :
    ∀ m : AggMap, dictGet (dictSet m k v) k' = dictGet m k' := by
  intro m
  induction m with
  | nil =>
    simp only [dictSet]
    rw [dictGet_cons, if_neg (fun hc => hk hc.symm)]
  | cons e rest ih =>
    simp only [dictSet]
    by_cases h : e.1 = k
    · rw [if_pos (by simpa using h)]
      rw [dictGet_cons, dictGet_cons, if_neg (fun hc => hk hc.symm), if_neg (by rw [h]; exact fun hc => hk hc.symm)]
    · rw [if_neg (by simpa using h)]
      rw [dictGet_cons, dictGet_cons, ih]

theorem dictGet_foldObs_self (m : AggMap) (o : Obs) :
    dictGet (foldObs m o) o.wallet
      = some (match dictGet m o.wallet with
              | none => newAgg o
              | some e => updAgg e o) := by
  unfold foldObs
  cases hres : dictGet m o.wallet with
  | none => simp [dictGet_dictSet_self]
  | some e => simp [dictGet_dictSet_self]

theorem dictGet_foldObs_ne (m : AggMap) (o : Obs) (w : String) (hw : w ≠ o.wallet) :
    dictGet (foldObs m o) w = dictGet m w := by
  unfold foldObs
  cases hres : dictGet m o.wallet with
  | none => exact dictGet_dictSet_ne o.wallet w (newAgg o) hw m
  | some e => exact dictGet_dictSet_ne o.wallet w (updAgg e o) hw m

theorem foldl_foldObs_present (w : String) :
    ∀ (os : List Obs) (m : AggMap) (e : WalletAggregate),
      (∀ x ∈ os, x.wallet = w) → dictGet m w = some e →
      dictGet (os.foldl foldObs m) w = some (os.foldl updAgg e) := by
  intro os
  induction os with
  | nil => intro m e _ hm; exact hm
  | cons x rest ih =>
    intro m e hall hm
    have hx : x.wallet = w := hall x (List.mem_cons_self x rest)
    have hstep : dictGet (foldObs m x) w = some (updAgg e x) := by
      have := dictGet_foldObs_self m x
      rw [hx] at this
      rw [this, hm]
    exact ih (foldObs m x) (updAgg e x) (fun y hy => hall y (List.mem_cons_of_mem x hy)) hstep

/-! ## C5: one aggregate record per wallet -/

theorem dictGet_none_iff (k : String) :
    ∀ m : AggMap, dictGet m k = none ↔ k ∉ m.map Prod.fst := by
  intro m
  induction m with
  | nil => simp [dictGet]
  | cons e rest ih =>
    rw [dictGet_cons]
    by_cases h : e.1 = k
    · simp [h]
    · simp only [if_neg h, ih, List.map_cons, List.mem_cons]
      constructor
      · intro hnot hc
        rcases hc with hc | hc
        · exact h hc.symm
        · exact hnot hc
      · intro hnot hc
        exact hnot (Or.inr hc)

theorem dictSet_keys_present (k : String) (v : WalletAggregate) :
    ∀ (m : AggMap) (e : WalletAggregate), dictGet m k = some e →
      (dictSet m k v).map Prod.fst = m.map Prod.fst := by
  intro m
  induction m with
  | nil => intro e he; cases he
  | cons a rest ih =>
    intro e he
    rw [dictGet_cons] at he
    simp only [dictSet]
    by_cases h : a.1 = k
    · rw [if_pos (by simpa using h)]
      simp [h]
    · rw [if_neg (by simpa using h)]
      rw [if_neg h] at he
      simp [ih e he]

theorem dictSet_keys_absent (k : String) (v : WalletAggregate) :
    ∀ m : AggMap, dictGet m k = none →
      (dictSet m k v).map Prod.fst = m.map Prod.fst ++ [k] := by
  intro m
  induction m with
  | nil => intro h; rfl
  | cons a rest ih =>
    intro h
    rw [dictGet_cons] at h
    by_cases ha : a.1 = k
    · rw [if_pos ha] at h
      cases h
    · rw [if_neg ha] at h
      simp only [dictSet]
      rw [if_neg (by simpa using ha)]
      simp [ih h]

theorem foldObs_keys_nodup (m : AggMap) (o : Obs)
    (h : (m.map Prod.fst).Nodup) : ((foldObs m o).map Prod.fst).Nodup := by
  unfold foldObs
  cases hres : dictGet m o.wallet with
  | none =>
    rw [dictSet_keys_absent o.wallet (newAgg o) m hres]
    refine List.Nodup.append h (List.nodup_singleton _) ?_
    intro a ha hb
    rw [List.mem_singleton] at hb
    subst hb
    exact ((dictGet_none_iff o.wallet m).mp hres) ha
  | some e =>
    rw [dictSet_keys_present o.wallet (updAgg e o) m e hres]
    exact h

theorem foldl_foldObs_keys_nodup :
    ∀ (stream : List Obs) (m : AggMap), (m.map Prod.fst).Nodup →
      ((stream.foldl foldObs m).map Prod.fst).Nodup := by
  intro stream
  induction stream with
  | nil => intro m h; exact h
  | cons o rest ih => intro m h; exact ih (foldObs m o) (foldObs_keys_nodup m o h)

theorem foldl_foldObs_isSome :
    ∀ (stream : List Obs) (m : AggMap) (w : String),
      (dictGet (stream.foldl foldObs m) w).isSome
        = ((dictGet m w).isSome || stream.any (fun o => o.wallet == w)) := by
  intro stream
  induction stream with
  | nil => intro m w; simp
  | cons o rest ih =>
    intro m w
    rw [List.foldl_cons, ih (foldObs m o) w, List.any_cons]
    by_cases hw : o.wallet = w
    · have h1 : dictGet (foldObs m o) w = some (match dictGet m o.wallet with
          | none => newAgg o
          | some e => updAgg e o) := by
        rw [← hw]
        exact dictGet_foldObs_self m o
      rw [h1]
      simp [hw]
    · rw [dictGet_foldObs_ne m o w (fun hc => hw hc.symm)]
      have : (o.wallet == w) = false := beq_eq_false_iff_ne.mpr hw
      rw [this]
      simp

theorem foldl_foldObs_count :
    ∀ (stream : List Obs) (m : AggMap) (w : String),
      txCountOf (dictGet (stream.foldl foldObs m) w)
        = txCountOf (dictGet m w) + stream.countP (fun o => o.wallet == w) := by
  intro stream
  induction stream with
  | nil => intro m w; simp [List.countP_nil]
  | cons o rest ih =>
    intro m w
    rw [List.foldl_cons, ih (foldObs m o) w]
    by_cases hw : o.wallet = w
    · have h1 : dictGet (foldObs m o) w = some (match dictGet m o.wallet with
          | none => newAgg o
          | some e => updAgg e o) := by
        rw [← hw]
        exact dictGet_foldObs_self m o
      rw [h1, List.countP_cons_of_pos _ rest (by simpa using hw)]
      have h2 : txCountOf (some (match dictGet m o.wallet with
          | none => newAgg o
          | some e => updAgg e o)) = txCountOf (dictGet m w) + 1 := by
        rw [← hw]
        cases dictGet m o.wallet with
        | none => rfl
        | some e => rfl
      omega
    · rw [dictGet_foldObs_ne m o w (fun hc => hw hc.symm),
        List.countP_cons_of_neg _ rest (by simpa using hw)]

theorem foldl_foldObs_wellkeyed :
    ∀ (stream : List Obs) (m : AggMap),
      (∀ k e, dictGet m k = some e → e.wallet = k) →
      ∀ k e, dictGet (stream.foldl foldObs m) k = some e → e.wallet = k := by
  intro stream
  induction stream with
  | nil => intro m hm; exact hm
  | cons o rest ih =>
    intro m hm
    refine ih (foldObs m o) ?_
    intro k e hk
    by_cases hw : k = o.wallet
    · subst hw
      rw [dictGet_foldObs_self m o] at hk
      injection hk with hk'
      subst hk'
      cases hres : dictGet m o.wallet with
      | none => simp [hres, newAgg]
      | some e0 =>
        have := hm o.wallet e0 hres
        simp [hres, updAgg, this]
    · rw [dictGet_foldObs_ne m o k hw] at hk
      exact hm k e hk

/-- C5: after folding an arbitrary stream of buyer observations (in
particular one drawn from transactions of several different pools) into an
empty aggregate map, the map's keys are pairwise distinct — exactly one
`WalletAggregate` per wallet address; a wallet has an entry iff it appears
in the stream; and that single entry is keyed by its own wallet and has
absorbed all of that wallet's observations (its `tx_count` is the full
per-wallet count of the stream). -/
theorem aggregate_single_record_per_wallet (stream : List Obs) :
    ((stream.foldl foldObs ([] : AggMap)).map Prod.fst).Nodup
    ∧ (∀ w : String, (dictGet (stream.foldl foldObs ([] : AggMap)) w).isSome
        = stream.any (fun o => o.wallet == w))
    ∧ (∀ (w : String) (agg : WalletAggregate),
        dictGet (stream.foldl foldObs ([] : AggMap)) w = some agg →
        agg.wallet = w ∧ agg.tx_count = stream.countP (fun o => o.wallet == w)) := by
  refine ⟨foldl_foldObs_keys_nodup stream [] (by simp),
    fun w => ?_, fun w agg hagg => ?_⟩
  · rw [foldl_foldObs_isSome stream [] w]
    rfl
  · refine ⟨foldl_foldObs_wellkeyed stream [] (by intro k e he; cases he) w agg hagg, ?_⟩
    have := foldl_foldObs_count stream [] w
    rw [hagg] at this
    simpa [txCountOf, dictGet] using this

/-- Witness for C5: a three-observation stream over two wallets produces
one entry for wallet `"W"` with `tx_count` 2. -/
theorem aggregate_single_record_per_wallet_witness :
    dictGet ([(⟨"W", some (.str "100"), some 6, some "sa", some 1200⟩ : Obs),
              ⟨"V", some (.str "3"), none, some "sc", some 1500⟩,
              ⟨"W", some (.str "50"), some 6, some "sb", some 1800⟩].foldl foldObs
        ([] : AggMap)) "W"
      = some ⟨"W", some 1200, some 1800, 2, 150, some 6, some "sa"⟩
    ∧ (⟨"W", some 1200, some 1800, 2, 150, some 6, some "sa"⟩ : WalletAggregate).wallet = "W"
    ∧ (⟨"W", some 1200, some 1800, 2, 150, some 6, some "sa"⟩ : WalletAggregate).tx_count
      = [(⟨"W", some (.str "100"), some 6, some "sa", some 1200⟩ : Obs),
         ⟨"V", some (.str "3"), none, some "sc", some 1500⟩,
         ⟨"W", some (.str "50"), some 6, some "sb", some 1800⟩].countP
          (fun o => o.wallet == "W") :=
  ⟨by decide,
    ((aggregate_single_record_per_wallet
        [⟨"W", some (.str "100"), some 6, some "sa", some 1200⟩,
         ⟨"V", some (.str "3"), none, some "sc", some 1500⟩,
         ⟨"W", some (.str "50"), some 6, some "sb", some 1800⟩]).2.2 "W"
      ⟨"W", some 1200, some 1800, 2, 150, some 6, some "sa"⟩ (by decide)).1,
    ((aggregate_single_record_per_wallet
        [⟨"W", some (.str "100"), some 6, some "sa", some 1200⟩,
         ⟨"V", some (.str "3"), none, some "sc", some 1500⟩,
         ⟨"W", some (.str "50"), some 6, some "sb", some 1800⟩]).2.2 "W"
      ⟨"W", some 1200, some 1800, 2, 150, some 6, some "sa"⟩ (by decide)).2⟩

/-! ## C1: field-by-field characterisation of the per-wallet fold -/

theorem foldl_updAgg_first_ts : ∀ (os : List Obs) (e : WalletAggregate),
    (os.foldl updAgg e).first_ts = os.foldl (fun a x => pyMinOpt a x.ts) e.first_ts := by
  intro os
  induction os with
  | nil => intro e; rfl
  | cons x rest ih => intro e; rw [List.foldl_cons, List.foldl_cons, ih]; rfl

theorem foldl_updAgg_last_ts : ∀ (os : List Obs) (e : WalletAggregate),
    (os.foldl updAgg e).last_ts = os.foldl (fun a x => pyMaxOpt a x.ts) e.last_ts := by
  intro os
  induction os with
  | nil => intro e; rfl
  | cons x rest ih => intro e; rw [List.foldl_cons, List.foldl_cons, ih]; rfl

theorem foldl_updAgg_tx_count : ∀ (os : List Obs) (e : WalletAggregate),
    (os.foldl updAgg e).tx_count = e.tx_count + os.length := by
  intro os
  induction os with
  | nil => intro e; rfl
  | cons x rest ih =>
    intro e
    rw [List.foldl_cons, ih, List.length_cons]
    simp [updAgg]
    omega

theorem foldl_updAgg_raw_total : ∀ (os : List Obs) (e : WalletAggregate),
    (os.foldl updAgg e).raw_total
      = e.raw_total + (os.map (fun x => rawContribution x.amt)).sum := by
  intro os
  induction os with
  | nil => intro e; simp
  | cons x rest ih =>
    intro e
    rw [List.foldl_cons, ih, List.map_cons, List.sum_cons]
    simp [updAgg]
    omega

theorem foldl_updAgg_decimals : ∀ (os : List Obs) (e : WalletAggregate),
    (os.foldl updAgg e).decimals
      = match e.decimals with
        | some v => some v
        | none => os.findSome? (fun x => x.dec) := by
  intro os
  induction os with
  | nil =>
    intro e
    simp only [List.foldl_nil, List.findSome?_nil]
    cases e.decimals <;> rfl
  | cons x rest ih =>
    intro e
    rw [List.foldl_cons, ih, List.findSome?_cons]
    cases he : e.decimals with
    | some v =>
      have : (updAgg e x).decimals = some v := by
        simp [updAgg, he]
      rw [this]
    | none =>
      cases hx : x.dec with
      | some u =>
        have : (updAgg e x).decimals = some u := by
          simp [updAgg, he, hx]
        rw [this]
      | none =>
        have : (updAgg e x).decimals = none := by
          simp [updAgg, he, hx]
        rw [this]

theorem foldl_updAgg_example_sig : ∀ (os : List Obs) (e : WalletAggregate),
    (os.foldl updAgg e).example_sig = e.example_sig := by
  intro os
  induction os with
  | nil => intro e; rfl
  | cons x rest ih => intro e; rw [List.foldl_cons, ih]; rfl

theorem foldl_updAgg_wallet : ∀ (os : List Obs) (e : WalletAggregate),
    (os.foldl updAgg e).wallet = e.wallet := by
  intro os
  induction os with
  | nil => intro e; rfl
  | cons x rest ih => intro e; rw [List.foldl_cons, ih]; rfl

theorem foldl_pyMinOpt_spec : ∀ (os : List Obs) (f0 : Int),
    (∀ x ∈ os, x.ts.isSome = true) →
    ∃ F : Int, os.foldl (fun a x => pyMinOpt a x.ts) (some f0) = some F
      ∧ (F = f0 ∨ F ∈ os.filterMap (fun x => x.ts))
      ∧ F ≤ f0 ∧ ∀ t ∈ os.filterMap (fun x => x.ts), F ≤ t := by
  intro os
  induction os with
  | nil =>
    intro f0 _
    exact ⟨f0, rfl, Or.inl rfl, le_refl f0, by simp⟩
  | cons x rest ih =>
    intro f0 hts
    obtain ⟨t, ht⟩ := Option.isSome_iff_exists.mp (hts x (List.mem_cons_self x rest))
    obtain ⟨F, hF, hmem, hle, hall⟩ :=
      ih (min f0 t) (fun y hy => hts y (List.mem_cons_of_mem x hy))
    have hfm : List.filterMap (fun x => x.ts) (x :: rest)
        = t :: rest.filterMap (fun x => x.ts) := by
      rw [List.filterMap_cons, ht]
    refine ⟨F, ?_, ?_, ?_, ?_⟩
    · rw [List.foldl_cons, ht]
      exact hF
    · rcases hmem with hm | hm
      · rcases le_total f0 t with hc | hc
        · exact Or.inl (by rw [hm]; exact min_eq_left hc)
        · refine Or.inr ?_
          rw [hfm, hm, min_eq_right hc]
          exact List.mem_cons_self _ _
      · exact Or.inr (by rw [hfm]; exact List.mem_cons_of_mem t hm)
    · exact le_trans hle (min_le_left f0 t)
    · intro t' ht'
      rw [hfm] at ht'
      rcases List.mem_cons.mp ht' with h1 | h1
      · rw [h1]
        exact le_trans hle (min_le_right f0 t)
      · exact hall t' h1

theorem foldl_pyMaxOpt_spec : ∀ (os : List Obs) (f0 : Int),
    (∀ x ∈ os, x.ts.isSome = true) →
    ∃ F : Int, os.foldl (fun a x => pyMaxOpt a x.ts) (some f0) = some F
      ∧ (F = f0 ∨ F ∈ os.filterMap (fun x => x.ts))
      ∧ f0 ≤ F ∧ ∀ t ∈ os.filterMap (fun x => x.ts), t ≤ F := by
  intro os
  induction os with
  | nil =>
    intro f0 _
    exact ⟨f0, rfl, Or.inl rfl, le_refl f0, by simp⟩
  | cons x rest ih =>
    intro f0 hts
    obtain ⟨t, ht⟩ := Option.isSome_iff_exists.mp (hts x (List.mem_cons_self x rest))
    obtain ⟨F, hF, hmem, hle, hall⟩ :=
      ih (max f0 t) (fun y hy => hts y (List.mem_cons_of_mem x hy))
    have hfm : List.filterMap (fun x => x.ts) (x :: rest)
        = t :: rest.filterMap (fun x => x.ts) := by
      rw [List.filterMap_cons, ht]
    refine ⟨F, ?_, ?_, ?_, ?_⟩
    · rw [List.foldl_cons, ht]
      exact hF
    · rcases hmem with hm | hm
      · rcases le_total f0 t with hc | hc
        · refine Or.inr ?_
          rw [hfm, hm, max_eq_right hc]
          exact List.mem_cons_self _ _
        · exact Or.inl (by rw [hm]; exact max_eq_left hc)
      · exact Or.inr (by rw [hfm]; exact List.mem_cons_of_mem t hm)
    · exact le_trans (le_max_left f0 t) hle
    · intro t' ht'
      rw [hfm] at ht'
      rcases List.mem_cons.mp ht' with h1 | h1
      · rw [h1]
        exact le_trans (le_max_right f0 t) hle
      · exact hall t' h1

/-- C1: folding a non-empty sequence of observations for one wallet
(every observation carries that wallet and, as guaranteed by the in-window
check of `main`, a present timestamp) into a map that does not yet hold
the wallet produces a single entry whose `first_ts` / `last_ts` are the
minimum / maximum of the observations' timestamps, whose `tx_count` is the
number of observations, whose `raw_total` is the sum of the per-observation
contributions, whose `decimals` is the first present decimals value (never
overwritten once set), and whose `example_sig` is the first observation's
signature. -/
theorem aggregator_fold_per_wallet (w : String) (m : AggMap) (o : Obs) (os : List Obs)
    (hm : dictGet m w = none)
    (hw : ∀ x ∈ o :: os, x.wallet = w)
    (hts : ∀ x ∈ o :: os, x.ts.isSome = true) :
    ∃ agg : WalletAggregate,
      dictGet ((o :: os).foldl foldObs m) w = some agg
      ∧ agg.wallet = w
      ∧ (∃ f : Int, agg.first_ts = some f
          ∧ f ∈ (o :: os).filterMap (fun x => x.ts)
          ∧ ∀ t ∈ (o :: os).filterMap (fun x => x.ts), f ≤ t)
      ∧ (∃ l : Int, agg.last_ts = some l
          ∧ l ∈ (o :: os).filterMap (fun x => x.ts)
          ∧ ∀ t ∈ (o :: os).filterMap (fun x => x.ts), t ≤ l)
      ∧ agg.tx_count = (o :: os).length
      ∧ agg.raw_total = ((o :: os).map (fun x => rawContribution x.amt)).sum
      ∧ agg.decimals = (o :: os).findSome? (fun x => x.dec)
      ∧ agg.example_sig = o.sig := by
  have how : o.wallet = w := hw o (List.mem_cons_self o os)
  have hots : o.ts.isSome = true := hts o (List.mem_cons_self o os)
  obtain ⟨t0, ht0⟩ := Option.isSome_iff_exists.mp hots
  have hstep : dictGet (foldObs m o) w = some (newAgg o) := by
    have h1 := dictGet_foldObs_self m o
    rw [how] at h1
    rw [h1, hm]
  have hget : dictGet ((o :: os).foldl foldObs m) w = some (os.foldl updAgg (newAgg o)) := by
    rw [List.foldl_cons]
    exact foldl_foldObs_present w os (foldObs m o) (newAgg o)
      (fun y hy => hw y (List.mem_cons_of_mem o hy)) hstep
  have hrest_ts : ∀ x ∈ os, x.ts.isSome = true :=
    fun y hy => hts y (List.mem_cons_of_mem o hy)
  have hfm : List.filterMap (fun x => x.ts) (o :: os)
      = t0 :: os.filterMap (fun x => x.ts) := by
    rw [List.filterMap_cons, ht0]
  obtain ⟨f, hfeq, hfmem, hfle, hfall⟩ := foldl_pyMinOpt_spec os t0 hrest_ts
  obtain ⟨l, hleq, hlmem, hlle, hlall⟩ := foldl_pyMaxOpt_spec os t0 hrest_ts
  refine ⟨os.foldl updAgg (newAgg o), hget, ?_, ⟨f, ?_, ?_, ?_⟩, ⟨l, ?_, ?_, ?_⟩, ?_, ?_, ?_, ?_⟩
  · rw [foldl_updAgg_wallet]
    exact how
  · rw [foldl_updAgg_first_ts]
    have : (newAgg o).first_ts = some t0 := by simp [newAgg, ht0]
    rw [this]
    exact hfeq
  · rw [hfm]
    rcases hfmem with h1 | h1
    · rw [h1]; exact List.mem_cons_self _ _
    · exact List.mem_cons_of_mem t0 h1
  · intro t ht
    rw [hfm] at ht
    rcases List.mem_cons.mp ht with h1 | h1
    · rw [h1]; exact hfle
    · exact hfall t h1
  · rw [foldl_updAgg_last_ts]
    have : (newAgg o).last_ts = some t0 := by simp [newAgg, ht0]
    rw [this]
    exact hleq
  · rw [hfm]
    rcases hlmem with h1 | h1
    · rw [h1]; exact List.mem_cons_self _ _
    · exact List.mem_cons_of_mem t0 h1
  · intro t ht
    rw [hfm] at ht
    rcases List.mem_cons.mp ht with h1 | h1
    · rw [h1]; exact hlle
    · exact hlall t h1
  · rw [foldl_updAgg_tx_count]
    simp [newAgg]
    omega
  · rw [foldl_updAgg_raw_total]
    simp [newAgg]
  · rw [foldl_updAgg_decimals]
    have : (newAgg o).decimals = o.dec := rfl
    rw [this, List.findSome?_cons]
    cases o.dec <;> rfl
  · rw [foldl_updAgg_example_sig]
    rfl

/-- Witness for C1: the spec's end-to-end scenario — two observations for
wallet `"W"` at timestamps 1200 and 1800 with amounts `"100"` and `"50"`. -/
theorem aggregator_fold_per_wallet_witness :
    dictGet ([] : AggMap) "W" = none
    ∧ (∃ agg : WalletAggregate,
        dictGet ([(⟨"W", some (.str "100"), some 6, some "sa", some 1200⟩ : Obs),
                  ⟨"W", some (.str "50"), some 6, some "sb", some 1800⟩].foldl foldObs
            ([] : AggMap)) "W" = some agg
        ∧ agg.wallet = "W"
        ∧ (∃ f : Int, agg.first_ts = some f
            ∧ f ∈ [(⟨"W", some (.str "100"), some 6, some "sa", some 1200⟩ : Obs),
                   ⟨"W", some (.str "50"), some 6, some "sb", some 1800⟩].filterMap
                (fun x => x.ts)
            ∧ ∀ t ∈ [(⟨"W", some (.str "100"), some 6, some "sa", some 1200⟩ : Obs),
                     ⟨"W", some (.str "50"), some 6, some "sb", some 1800⟩].filterMap
                (fun x => x.ts), f ≤ t)
        ∧ (∃ l : Int, agg.last_ts = some l
            ∧ l ∈ [(⟨"W", some (.str "100"), some 6, some "sa", some 1200⟩ : Obs),
                   ⟨"W", some (.str "50"), some 6, some "sb", some 1800⟩].filterMap
                (fun x => x.ts)
            ∧ ∀ t ∈ [(⟨"W", some (.str "100"), some 6, some "sa", some 1200⟩ : Obs),
                     ⟨"W", some (.str "50"), some 6, some "sb", some 1800⟩].filterMap
                (fun x => x.ts), t ≤ l)
        ∧ agg.tx_count = [(⟨"W", some (.str "100"), some 6, some "sa", some 1200⟩ : Obs),
                          ⟨"W", some (.str "50"), some 6, some "sb", some 1800⟩].length
        ∧ agg.raw_total = ([(⟨"W", some (.str "100"), some 6, some "sa", some 1200⟩ : Obs),
                            ⟨"W", some (.str "50"), some 6, some "sb", some 1800⟩].map
            (fun x => rawContribution x.amt)).sum
        ∧ agg.decimals = [(⟨"W", some (.str "100"), some 6, some "sa", some 1200⟩ : Obs),
                          ⟨"W", some (.str "50"), some 6, some "sb", some 1800⟩].findSome?
            (fun x => x.dec)
        ∧ agg.example_sig
          = (⟨"W", some (.str "100"), some 6, some "sa", some 1200⟩ : Obs).sig) :=
  ⟨rfl,
    aggregator_fold_per_wallet "W" []
      ⟨"W", some (.str "100"), some 6, some "sa", some 1200⟩
      [⟨"W", some (.str "50"), some 6, some "sb", some 1800⟩]
      rfl (by decide) (by decide)⟩

end InsidersSniffer
